import Mathlib

/-!
Verification development for the TelArbitrageBot market-aggregation and
arbitrage-detection pipeline (src/exchange.py, src/main.py).

The Python source is shallowly embedded: prices are rationals (`ℚ`),
optional prices are `Option ℚ` (Python `None` becomes `none`, and Python
truthiness `not price` is false exactly for `none` and `some 0`),
dictionaries are association lists, sets of symbols are `Finset String`,
and network calls are oracles passed in as explicit parameters.
-/

namespace TelArbitrage

/-- A ticker as produced by `fetch_tickers`: top-of-book bid/ask, last
trade price and a timestamp, any of which may be missing. -/
structure Ticker where
  bid : Option ℚ
  ask : Option ℚ
  last : Option ℚ
  timestamp : Option ℚ
deriving DecidableEq, Repr

/-- An arbitrage opportunity dict as built by
`find_arbitrage_opportunities` in src/exchange.py. -/
structure Opportunity where
  symbol : String
  buy_exchange : String
  buy_price : ℚ
  sell_exchange : String
  sell_price : ℚ
  profit_pct : ℚ
deriving DecidableEq, Repr

/-- The two directional checks of `find_arbitrage_opportunities`
(src/exchange.py lines 223-249), reached only after the price guards:
diff1 = (bid1 - ask2) / ask2 (buy on ex2, sell on ex1) and
diff2 = (bid2 - ask1) / ask1 (buy on ex1, sell on ex2); a direction is
appended iff its diff is strictly above the threshold. -/
def evalDirections (b1 a1 b2 a2 : ℚ) (symbol ex1 ex2 : String)
    (threshold : ℚ) : List Opportunity :=
  let diff1 := (b1 - a2) / a2
  let diff2 := (b2 - a1) / a1
  (if diff1 > threshold then
    [⟨symbol, ex2, a2, ex1, b1, diff1 * 100⟩] else []) ++
  (if diff2 > threshold then
    [⟨symbol, ex1, a1, ex2, b2, diff2 * 100⟩] else [])

/-- The per-symbol body of the detector loop (src/exchange.py lines
209-249): skip if either ticker is absent (`if not ticker1 or not
ticker2`), skip if any of the four prices is Python-falsy (`None` or
zero: `if not bid1 or not ask1 or not bid2 or not ask2`), skip if any is
nonpositive (`if bid1 <= 0 or ...`), otherwise evaluate both
directions. -/
def evalSymbol (ticker1 ticker2 : Option Ticker) (symbol ex1 ex2 : String)
    (threshold : ℚ) : List Opportunity :=
  match ticker1, ticker2 with
  | some t1, some t2 =>
    match t1.bid, t1.ask, t2.bid, t2.ask with
    | some b1, some a1, some b2, some a2 =>
      if b1 = 0 ∨ a1 = 0 ∨ b2 = 0 ∨ a2 = 0 then []
      else if b1 ≤ 0 ∨ a1 ≤ 0 ∨ b2 ≤ 0 ∨ a2 ≤ 0 then []
      else evalDirections b1 a1 b2 a2 symbol ex1 ex2 threshold
    | _, _, _, _ => []
  | _, _ => []

/-! ### Symbol Reconciler (src/exchange.py `get_common_symbols`) -/

/-- The loaded exchanges, as the dict `{name: exchange}` of
`load_exchanges`: an association list of names to spot-symbol sets.
Only the `spot_symbols` attribute is consumed downstream. -/
abbrev ExchangeObjects := List (String × Finset String)

/-- The inner loop of `get_common_symbols` (src/exchange.py lines
58-62): the union of `spot_symbols` over every exchange other than
`name`. -/
def otherSymbols (objs : ExchangeObjects) (name : String) : Finset String :=
  objs.foldl (fun acc p => if p.1 ≠ name then acc ∪ p.2 else acc) ∅

/-- `get_common_symbols` (src/exchange.py lines 53-66): for each loaded
exchange, the sorted list of its spot symbols that also occur on some
other loaded exchange. -/
def get_common_symbols (objs : ExchangeObjects) :
    List (String × List String) :=
  objs.map (fun p => (p.1, (p.2 ∩ otherSymbols objs p.1).sort (· ≤ ·)))

/-- Python `dict.get(k, default)` / `dict[k]` on an association list. -/
def lookupD {α : Type} (l : List (String × α)) (k : String) (d : α) : α :=
  ((l.find? (fun p => p.1 = k)).map (fun p => p.2)).getD d

/-! ### Arbitrage Detector enumeration (src/exchange.py
`find_arbitrage_opportunities`, lines 186-251) -/

/-- One tick's `TickerSnapshot`: `{exchange_name: {symbol: ticker}}`. -/
abbrev TickerSnapshot := List (String × List (String × Ticker))

/-- `get_all_tickers` keeps only exchanges whose fetch returned a
non-empty ticker map (src/exchange.py lines 139-142: `if tickers:`). -/
def get_all_tickers (results : List (String × List (String × Ticker))) :
    TickerSnapshot :=
  results.filter (fun p => ¬ p.2.isEmpty)

/-- The `for i ... for j in range(i+1, ...)` double loop over the
exchange list (src/exchange.py lines 192-196): all pairs (l[i], l[j])
with i < j, in enumeration order. -/
def orderedPairs : List String → List (String × String)
  | [] => []
  | x :: xs => xs.map (fun y => (x, y)) ++ orderedPairs xs

/-- `symbols1.intersection(symbols2)` where both sides are Python sets
built from the common-symbol lists (src/exchange.py lines 194-200):
the distinct symbols of the first list that also occur in the second. -/
def sharedSyms (cs : List (String × List String)) (ex1 ex2 : String) :
    List String :=
  ((lookupD cs ex1 []).dedup).filter (fun s => s ∈ lookupD cs ex2 [])

/-- `tickers[ex].get(symbol)` on the snapshot. -/
def tickerLookup (tickers : TickerSnapshot) (ex symbol : String) :
    Option Ticker :=
  ((lookupD tickers ex []).find? (fun p => p.1 = symbol)).map (fun p => p.2)

/-- The (ex1, ex2, symbol) combinations enumerated by the detector's
nested loops, in order. -/
def detectTriples (tickers : TickerSnapshot)
    (cs : List (String × List String)) :
    List (String × String × String) :=
  (orderedPairs (tickers.map (fun p => p.1))).flatMap
    (fun p => (sharedSyms cs p.1 p.2).map (fun s => (p.1, p.2, s)))

/-- The detector's main loop with its `checked` set (src/exchange.py
lines 202-249): for each enumerated triple, skip it if either
orientation is already in `checked`; otherwise add it to `checked` and
append the per-symbol evaluation's opportunities. Returns the final
`checked` collection and the opportunity list. -/
def detectLoop (tickers : TickerSnapshot) (cs : List (String × List String))
    (threshold : ℚ) :
    List (String × String × String) → List (String × String × String) →
    List Opportunity → List (String × String × String) × List Opportunity
  | [], checked, opps => (checked, opps)
  | (e1, e2, s) :: rest, checked, opps =>
    if (e1, e2, s) ∈ checked ∨ (e2, e1, s) ∈ checked then
      detectLoop tickers cs threshold rest checked opps
    else
      detectLoop tickers cs threshold rest ((e1, e2, s) :: checked)
        (opps ++ evalSymbol (tickerLookup tickers e1 s)
          (tickerLookup tickers e2 s) s e1 e2 threshold)

/-- `find_arbitrage_opportunities` (src/exchange.py lines 186-251),
taking the assembled `TickerSnapshot` as input (the fetch itself is
modelled separately). -/
def find_arbitrage_opportunities (tickers : TickerSnapshot)
    (cs : List (String × List String)) (threshold : ℚ) : List Opportunity :=
  (detectLoop tickers cs threshold (detectTriples tickers cs) [] []).2

/-! ### Ticker Fetcher (src/exchange.py `fetch_exchange_tickers`) -/

/-- Outcome of one filtered `exchange.fetch_tickers(batch)` call, as an
oracle value: success with a ticker map after `dur` seconds, a transient
exception after `dur` seconds, or a `TypeError` (filtered fetch
unsupported). -/
inductive BatchResult where
  | ok (tickers : List (String × Ticker)) (dur : ℚ)
  | transient (dur : ℚ)
  | typeErr
deriving Repr

/-- The network/exchange environment for one `fetch_exchange_tickers`
call: whether the exchange advertises `fetchTickers`, the outcome of the
filtered batch call starting at symbol offset `i`, and the outcome of an
unfiltered `exchange.fetch_tickers()` (`none` models a raised exception,
or a timeout on the isolated kucoin path). -/
structure FetchEnv where
  supportsFetchTickers : Bool
  batchResult : ℕ → BatchResult
  fullResult : Option (List (String × Ticker))

/-- Python `dict.update`: existing keys keep their position but take the
new value; keys only in `new` are appended. -/
def dictUpdate (m new : List (String × Ticker)) : List (String × Ticker) :=
  m.map (fun p =>
    match new.find? (fun q => q.1 = p.1) with
    | some q => (p.1, q.2)
    | none => p) ++
  new.filter (fun q => ¬ m.any (fun p => p.1 = q.1))

/-- The batch loop of `fetch_exchange_tickers` (src/exchange.py lines
109-128). State: remaining symbols, current offset `i`, elapsed
monotonic time, accumulated tickers. Before each batch the elapsed time
is compared with the timeout (`time.monotonic() - start_time > timeout`)
and on expiry the accumulated map is returned. A successful batch is
merged with `tickers.update(partial)`; a transient error keeps the
accumulator, sleeps 1 second and continues with the next batch; a
`TypeError` falls back to one unfiltered fetch, whose failure keeps the
accumulator, and stops. -/
def fetchBatches (env : FetchEnv) (timeout : ℚ) (bs : ℕ) :
    List String → ℕ → ℚ → List (String × Ticker) → List (String × Ticker)
  | [], _, _, tickers => tickers
  | s :: rest, i, elapsed, tickers =>
    if elapsed > timeout then tickers
    else
      match env.batchResult i with
      | .ok part dur =>
        fetchBatches env timeout bs (rest.drop (bs - 1)) (i + bs)
          (elapsed + dur) (dictUpdate tickers part)
      | .transient dur =>
        fetchBatches env timeout bs (rest.drop (bs - 1)) (i + bs)
          (elapsed + dur + 1) tickers
      | .typeErr =>
        match env.fullResult with
        | some all => all
        | none => tickers
  termination_by l => l.length
  decreasing_by
    all_goals simp [List.length_drop]
    all_goals omega

/-- `fetch_exchange_tickers` (src/exchange.py lines 79-128): skip the
exchange if it does not support `fetchTickers`; route kucoin through the
isolated full fetch (filtering by the common symbols, empty on timeout
or error); otherwise run the batch loop starting with an empty map at
elapsed time 0. -/
def fetch_exchange_tickers (name : String) (env : FetchEnv)
    (symbols : List String) (bs : ℕ) (timeout : ℚ) :
    List (String × Ticker) :=
  if ¬ env.supportsFetchTickers then []
  else if name = "kucoin" then
    match env.fullResult with
    | some all => all.filter (fun p => p.1 ∈ symbols)
    | none => []
  else fetchBatches env timeout bs symbols 0 0 []

/-! ### Alert Deduplicator (src/main.py) -/

/-- `opportunity_key` (src/main.py lines 53-54):
`f"{opp['symbol']}:{opp['buy_exchange']}:{opp['sell_exchange']}"`. -/
def opportunity_key (opp : Opportunity) : String :=
  opp.symbol ++ ":" ++ opp.buy_exchange ++ ":" ++ opp.sell_exchange

/-- The `sent_opportunities` dict: subscriber id (Telegram chat id) to
the set of opportunity keys already delivered since the last reset. -/
abbrev SentMap := List (ℤ × Finset String)

/-- Reading `sent_opportunities[user_id]` after the
`if user_id not in sent_opportunities: sent_opportunities[user_id] = set()`
initialization (src/main.py lines 176-177): absent users read as ∅. -/
def getUser (m : SentMap) (u : ℤ) : Finset String :=
  (((m.find? (fun p => p.1 = u)).map (fun p => p.2))).getD ∅

/-- Writing `sent_opportunities[user_id] = s`: replace the entry if the
key is present, append it otherwise. -/
def setUser (m : SentMap) (u : ℤ) (s : Finset String) : SentMap :=
  if m.any (fun p => p.1 = u) then
    m.map (fun p => if p.1 = u then (u, s) else p)
  else m ++ [(u, s)]

/-- The per-subscriber record-and-filter step (src/main.py lines
179-184): walk the tick's opportunities in order; an opportunity whose
key is not yet in the subscriber's delivered set is added to the set and
to the outgoing batch, otherwise it is dropped. Returns the updated set
and the outgoing batch. -/
def recordAndFilter (delivered : Finset String) :
    List Opportunity → Finset String × List Opportunity
  | [] => (delivered, [])
  | opp :: rest =>
    if opportunity_key opp ∈ delivered then recordAndFilter delivered rest
    else
      let r := recordAndFilter (insert (opportunity_key opp) delivered) rest
      (r.1, opp :: r.2)

/-- The subscriber loop of `send_arbitrage_alerts` (src/main.py lines
174-198): for each subscribed user, record-and-filter the tick's
opportunities against that user's delivered set, then attempt the send
when the batch is non-empty; `sendOk` tells whether
`context.bot.send_message` succeeds for a user (a failure is caught and
logged). Returns the updated `sent_opportunities` state and the list of
successfully sent `(user, batch)` messages. -/
def alertLoop (opps : List Opportunity) (sendOk : ℤ → Bool) :
    List ℤ → SentMap → SentMap × List (ℤ × List Opportunity)
  | [], st => (st, [])
  | u :: rest, st =>
    let r := recordAndFilter (getUser st u) opps
    let tail := alertLoop opps sendOk rest (setUser st u r.1)
    if r.2 ≠ [] ∧ sendOk u then (tail.1, (u, r.2) :: tail.2)
    else (tail.1, tail.2)

/-- `send_arbitrage_alerts` (src/main.py lines 163-198) after detection:
with no opportunities it returns immediately; otherwise it runs the
subscriber loop. -/
def send_arbitrage_alerts (subscribers : List ℤ) (opps : List Opportunity)
    (sendOk : ℤ → Bool) (st : SentMap) :
    SentMap × List (ℤ × List Opportunity) :=
  if opps.isEmpty then (st, []) else alertLoop opps sendOk subscribers st

/-- `clear_sent_opportunities` (src/main.py lines 64-67): every
subscriber present in `sent_opportunities` has its delivered-key set
cleared in place. -/
def clear_sent_opportunities (m : SentMap) : SentMap :=
  m.map (fun p => (p.1, (∅ : Finset String)))

/-! ### Subscription state (src/main.py `stop`, `handle_button_press`) -/

/-- The bot's global mutable state relevant to subscriptions:
`subscribed_users` and `sent_opportunities`. -/
structure BotState where
  subscribed : Finset ℤ
  sent : SentMap

/-- The `/stop` handler (src/main.py lines 141-158): if the user is
subscribed, discard them from `subscribed_users`; `sent_opportunities`
is not touched. -/
def stopCmd (u : ℤ) (st : BotState) : BotState :=
  if u ∈ st.subscribed then { st with subscribed := st.subscribed.erase u }
  else st

/-- The subscribe / resubscribe button handler (src/main.py lines
103-134): if the user is not subscribed, add them to
`subscribed_users`; `sent_opportunities` is not touched. -/
def subscribeCmd (u : ℤ) (st : BotState) : BotState :=
  if u ∉ st.subscribed then { st with subscribed := insert u st.subscribed }
  else st

/-! ### C1 / C3: per-direction detector behaviour -/

/-- C1: for a pair of exchanges and a shared symbol whose four prices
are all present and strictly positive, the detector evaluates both
directions, with diff1 = (bid1 - ask2) / ask2 (buy on ex2, sell on ex1)
and diff2 = (bid2 - ask1) / ask1 (buy on ex1, sell on ex2); a direction
contributes an Opportunity iff its diff is strictly greater than the
threshold (equality excluded), and the emitted profit_pct is
diff * 100. -/
theorem detector_direction_iff (t1 t2 : Ticker) (b1 a1 b2 a2 : ℚ)
    (symbol ex1 ex2 : String) (threshold : ℚ)
    (hb1 : t1.bid = some b1) (ha1 : t1.ask = some a1)
    (hb2 : t2.bid = some b2) (ha2 : t2.ask = some a2)
    (pb1 : 0 < b1) (pa1 : 0 < a1) (pb2 : 0 < b2) (pa2 : 0 < a2) :
    evalSymbol (some t1) (some t2) symbol ex1 ex2 threshold =
      (if (b1 - a2) / a2 > threshold then
        [⟨symbol, ex2, a2, ex1, b1, (b1 - a2) / a2 * 100⟩] else []) ++
      (if (b2 - a1) / a1 > threshold then
        [⟨symbol, ex1, a1, ex2, b2, (b2 - a1) / a1 * 100⟩] else []) := by
  simp only [evalSymbol, hb1, ha1, hb2, ha2]
  rw [if_neg, if_neg]
  · rfl
  · push_neg
    exact ⟨pb1, pa1, pb2, pa2⟩
  · push_neg
    exact ⟨pb1.ne', pa1.ne', pb2.ne', pa2.ne'⟩

/-- Witness for C1 at the spec's end-to-end example: exchange A with
bid 100 / ask 101, exchange B with bid 95 / ask 96, threshold 0.02;
only the "buy B, sell A" direction fires, with profit_pct 400/96. -/
theorem detector_direction_iff_witness :
    evalSymbol (some ⟨some 100, some 101, none, none⟩)
      (some ⟨some 95, some 96, none, none⟩) "X/Y" "A" "B" (2 / 100) =
      [⟨"X/Y", "B", 96, "A", 100, (100 - 96) / 96 * 100⟩] := by
  rw [detector_direction_iff ⟨some 100, some 101, none, none⟩
    ⟨some 95, some 96, none, none⟩ 100 101 95 96 "X/Y" "A" "B" (2 / 100)
    rfl rfl rfl rfl (by norm_num) (by norm_num) (by norm_num) (by norm_num)]
  norm_num

/-- C3: a direction is skipped, returning no opportunities, whenever a
ticker is absent, a price is missing (None), or a price is zero or
negative; and whenever the evaluation does reach the diff computations
(the only division sites), both ask prices are strictly positive. -/
theorem detector_skips_invalid_prices :
    (∀ t2 symbol ex1 ex2 threshold,
      evalSymbol none t2 symbol ex1 ex2 threshold = []) ∧
    (∀ t1 symbol ex1 ex2 threshold,
      evalSymbol t1 none symbol ex1 ex2 threshold = []) ∧
    (∀ (t1 t2 : Ticker) symbol ex1 ex2 threshold,
      (t1.bid = none ∨ t1.ask = none ∨ t2.bid = none ∨ t2.ask = none) →
      evalSymbol (some t1) (some t2) symbol ex1 ex2 threshold = []) ∧
    (∀ (t1 t2 : Ticker) (b1 a1 b2 a2 : ℚ) symbol ex1 ex2 threshold,
      t1.bid = some b1 → t1.ask = some a1 →
      t2.bid = some b2 → t2.ask = some a2 →
      (b1 ≤ 0 ∨ a1 ≤ 0 ∨ b2 ≤ 0 ∨ a2 ≤ 0) →
      evalSymbol (some t1) (some t2) symbol ex1 ex2 threshold = []) ∧
    (∀ ot1 ot2 symbol ex1 ex2 threshold,
      evalSymbol ot1 ot2 symbol ex1 ex2 threshold = [] ∨
      ∃ t1 t2 b1 a1 b2 a2, ot1 = some t1 ∧ ot2 = some t2 ∧
        t1.bid = some b1 ∧ t1.ask = some a1 ∧
        t2.bid = some b2 ∧ t2.ask = some a2 ∧ 0 < a1 ∧ 0 < a2 ∧
        evalSymbol ot1 ot2 symbol ex1 ex2 threshold =
          evalDirections b1 a1 b2 a2 symbol ex1 ex2 threshold) := by
  refine ⟨?_, ?_, ?_, ?_, ?_⟩
  · intro t2 symbol ex1 ex2 threshold
    cases t2 <;> rfl
  · intro t1 symbol ex1 ex2 threshold
    cases t1 <;> rfl
  · intro t1 t2 symbol ex1 ex2 threshold h
    obtain ⟨tb1, ta1, tl1, tt1⟩ := t1
    obtain ⟨tb2, ta2, tl2, tt2⟩ := t2
    cases tb1 <;> cases ta1 <;> cases tb2 <;> cases ta2 <;>
      simp_all [evalSymbol]
  · intro t1 t2 b1 a1 b2 a2 symbol ex1 ex2 threshold hb1 ha1 hb2 ha2 h
    simp only [evalSymbol, hb1, ha1, hb2, ha2]
    by_cases hz : b1 = 0 ∨ a1 = 0 ∨ b2 = 0 ∨ a2 = 0
    · rw [if_pos hz]
    · rw [if_neg hz, if_pos h]
  · intro ot1 ot2 symbol ex1 ex2 threshold
    cases ot1 with
    | none => exact Or.inl rfl
    | some t1 =>
      cases ot2 with
      | none => exact Or.inl rfl
      | some t2 =>
        rcases hb1 : t1.bid with _ | b1
        · exact Or.inl (by simp [evalSymbol, hb1])
        rcases ha1 : t1.ask with _ | a1
        · exact Or.inl (by simp [evalSymbol, hb1, ha1])
        rcases hb2 : t2.bid with _ | b2
        · exact Or.inl (by simp [evalSymbol, hb1, ha1, hb2])
        rcases ha2 : t2.ask with _ | a2
        · exact Or.inl (by simp [evalSymbol, hb1, ha1, hb2, ha2])
        by_cases hz : b1 = 0 ∨ a1 = 0 ∨ b2 = 0 ∨ a2 = 0
        · refine Or.inl ?_
          simp only [evalSymbol, hb1, ha1, hb2, ha2]
          rw [if_pos hz]
        by_cases hn : b1 ≤ 0 ∨ a1 ≤ 0 ∨ b2 ≤ 0 ∨ a2 ≤ 0
        · refine Or.inl ?_
          simp only [evalSymbol, hb1, ha1, hb2, ha2]
          rw [if_neg hz, if_pos hn]
        · push_neg at hn
          refine Or.inr ⟨t1, t2, b1, a1, b2, a2, rfl, rfl, hb1, ha1, hb2,
            ha2, hn.2.1, hn.2.2.2, ?_⟩
          simp only [evalSymbol, hb1, ha1, hb2, ha2]
          rw [if_neg hz, if_neg]
          push_neg
          exact hn

/-- Witness for C3: ticker for the buy-side exchange has `ask = None`,
so the pair is skipped without an opportunity, as in the spec's
missing-price example. -/
theorem detector_skips_invalid_prices_witness :
    evalSymbol (some ⟨some 100, none, none, none⟩)
      (some ⟨some 95, some 96, none, none⟩) "X/Y" "A" "B" (2 / 100) = [] :=
  detector_skips_invalid_prices.2.2.1 ⟨some 100, none, none, none⟩
    ⟨some 95, some 96, none, none⟩ "X/Y" "A" "B" (2 / 100)
    (Or.inr (Or.inl rfl))

/-! ### C2: symbol reconciler -/

/-- Membership in the union accumulated by the inner loop of
`get_common_symbols`. -/
theorem mem_otherSymbols (objs : ExchangeObjects) (name s : String) :
    s ∈ otherSymbols objs name ↔ ∃ p ∈ objs, p.1 ≠ name ∧ s ∈ p.2 := by
  have key : ∀ (l : ExchangeObjects) (init : Finset String),
      s ∈ l.foldl (fun acc p => if p.1 ≠ name then acc ∪ p.2 else acc) init ↔
      s ∈ init ∨ ∃ p ∈ l, p.1 ≠ name ∧ s ∈ p.2 := by
    intro l
    induction l with
    | nil => intro init; simp
    | cons q rest ih =>
      intro init
      simp only [List.foldl_cons, ih, List.mem_cons]
      by_cases hq : q.1 ≠ name
      · rw [if_pos hq]
        simp only [Finset.mem_union]
        constructor
        · rintro ((h | h) | ⟨p, hp, hpn, hps⟩)
          · exact Or.inl h
          · exact Or.inr ⟨q, Or.inl rfl, hq, h⟩
          · exact Or.inr ⟨p, Or.inr hp, hpn, hps⟩
        · rintro (h | ⟨p, (rfl | hp), hpn, hps⟩)
          · exact Or.inl (Or.inl h)
          · exact Or.inl (Or.inr hps)
          · exact Or.inr ⟨p, hp, hpn, hps⟩
      · rw [if_neg hq]
        push_neg at hq
        constructor
        · rintro (h | ⟨p, hp, hpn, hps⟩)
          · exact Or.inl h
          · exact Or.inr ⟨p, Or.inr hp, hpn, hps⟩
        · rintro (h | ⟨p, (rfl | hp), hpn, hps⟩)
          · exact Or.inl h
          · exact absurd hq hpn
          · exact Or.inr ⟨p, hp, hpn, hps⟩
  unfold otherSymbols
  rw [key objs ∅]
  simp

/-- `find?` on an association list with duplicate-free keys returns the
unique entry for a present key. -/
theorem find?_assoc_eq {α : Type} (l : List (String × α)) (k : String)
    (v : α) (hnd : (l.map Prod.fst).Nodup) (hm : (k, v) ∈ l) :
    l.find? (fun p => p.1 = k) = some (k, v) := by
  induction l with
  | nil => cases hm
  | cons q rest ih =>
    simp only [List.map_cons, List.nodup_cons] at hnd
    rcases List.mem_cons.mp hm with h | h
    · subst h
      rw [List.find?_cons_of_pos]
      simp
    · have hk : k ∈ rest.map Prod.fst := List.mem_map.mpr ⟨(k, v), h, rfl⟩
      have hq : q.1 ≠ k := fun e => hnd.1 (e ▸ hk)
      rw [List.find?_cons_of_neg]
      · exact ih hnd.2 h
      · simp [hq]

/-- Reading the reconciler output at a loaded exchange. -/
theorem lookup_get_common_symbols (objs : ExchangeObjects) (name : String)
    (own : Finset String) (hnd : (objs.map Prod.fst).Nodup)
    (hm : (name, own) ∈ objs) :
    lookupD (get_common_symbols objs) name [] =
      (own ∩ otherSymbols objs name).sort (· ≤ ·) := by
  unfold lookupD get_common_symbols
  rw [List.find?_map]
  have hcomp : ((fun p : String × List String => decide (p.1 = name)) ∘
      (fun p : String × Finset String =>
        (p.1, (p.2 ∩ otherSymbols objs p.1).sort (· ≤ ·)))) =
      (fun p : String × Finset String => decide (p.1 = name)) := rfl
  rw [hcomp, find?_assoc_eq objs name own hnd hm]
  rfl

/-- C2: with duplicate-free exchange names, a symbol is in exchange X's
reconciled list iff it is in X's spot symbols and in some other loaded
exchange's spot symbols; each output list is sorted ascending; and with
fewer than two loaded exchanges every output list is empty. -/
theorem common_symbols_spec :
    (∀ (objs : ExchangeObjects) (name : String) (own : Finset String)
      (s : String), (objs.map Prod.fst).Nodup → (name, own) ∈ objs →
      (s ∈ lookupD (get_common_symbols objs) name [] ↔
        s ∈ own ∧ ∃ p ∈ objs, p.1 ≠ name ∧ s ∈ p.2)) ∧
    (∀ (objs : ExchangeObjects) (q : String × List String),
      q ∈ get_common_symbols objs → q.2.Sorted (· ≤ ·)) ∧
    (∀ objs : ExchangeObjects, objs.length < 2 →
      ∀ q ∈ get_common_symbols objs, q.2 = []) := by
  refine ⟨?_, ?_, ?_⟩
  · intro objs name own s hnd hm
    rw [lookup_get_common_symbols objs name own hnd hm, Finset.mem_sort,
      Finset.mem_inter, mem_otherSymbols]
  · intro objs q hq
    obtain ⟨p, hp, rfl⟩ := List.mem_map.mp hq
    exact Finset.sort_sorted _ _
  · intro objs hlen q hq
    match objs with
    | [] => simp [get_common_symbols] at hq
    | [a] =>
      have hother : otherSymbols [a] a.1 = ∅ := by
        simp [otherSymbols]
      simp only [get_common_symbols, List.map_cons, List.map_nil,
        List.mem_cons, List.not_mem_nil, or_false] at hq
      subst hq
      simp [hother]
    | a :: b :: rest => simp at hlen; omega

/-- Witness for C2 on concrete universes: with exchanges a = {S, T} and
b = {S}, symbol S is common to a; with the single exchange a = {S}, the
reconciled list is sorted and empty. -/
theorem common_symbols_spec_witness :
    "S" ∈ lookupD
      (get_common_symbols [("a", {"S", "T"}), ("b", {"S"})]) "a" [] ∧
    (Finset.sort (· ≤ ·)
      (({"S"} : Finset String) ∩ otherSymbols [("a", {"S"})] "a")).Sorted
      (· ≤ ·) ∧
    Finset.sort (· ≤ ·)
      (({"S"} : Finset String) ∩ otherSymbols [("a", {"S"})] "a") = [] := by
  refine ⟨?_, ?_, ?_⟩
  · exact (common_symbols_spec.1 [("a", {"S", "T"}), ("b", {"S"})] "a"
      {"S", "T"} "S" (by decide) (List.mem_cons_self _ _)).mpr
      ⟨by simp, ("b", {"S"}),
        List.mem_cons_of_mem _ (List.mem_cons_self _ _), by decide, by simp⟩
  · exact common_symbols_spec.2.1 [("a", {"S"})] _ (List.mem_cons_self _ _)
  · exact common_symbols_spec.2.2 [("a", {"S"})] (by norm_num) _
      (List.mem_cons_self _ _)

/-! ### C4: pair/symbol enumeration -/

/-- Number of occurrences of the unordered (exchange-pair, symbol)
combination {x, y} × {s} in a list of detector triples. -/
def unorderedCount (l : List (String × String × String)) (x y s : String) :
    ℕ :=
  l.countP (fun t => t = (x, y, s) ∨ t = (y, x, s))

/-- Both components of an enumerated pair come from the exchange
list. -/
theorem orderedPairs_mem_keys (l : List String) (x y : String)
    (h : (x, y) ∈ orderedPairs l) : x ∈ l ∧ y ∈ l := by
  induction l with
  | nil => simp [orderedPairs] at h
  | cons a t ih =>
    simp only [orderedPairs, List.mem_append, List.mem_map] at h
    rcases h with ⟨z, hz, he⟩ | h
    · simp only [Prod.mk.injEq] at he
      obtain ⟨rfl, rfl⟩ := he
      exact ⟨List.mem_cons_self _ _, List.mem_cons_of_mem _ hz⟩
    · obtain ⟨hx, hy⟩ := ih h
      exact ⟨List.mem_cons_of_mem _ hx, List.mem_cons_of_mem _ hy⟩

/-- Two distinct list members are enumerated in one of the two
orientations. -/
theorem orderedPairs_exists (l : List String) (x y : String)
    (hx : x ∈ l) (hy : y ∈ l) (hxy : x ≠ y) :
    (x, y) ∈ orderedPairs l ∨ (y, x) ∈ orderedPairs l := by
  induction l with
  | nil => cases hx
  | cons a t ih =>
    by_cases hxa : x = a
    · subst hxa
      have hyt : y ∈ t := by
        rcases List.mem_cons.mp hy with h | h
        · exact absurd h.symm hxy
        · exact h
      refine Or.inl ?_
      simp only [orderedPairs, List.mem_append, List.mem_map]
      exact Or.inl ⟨y, hyt, rfl⟩
    · by_cases hya : y = a
      · subst hya
        have hxt : x ∈ t := by
          rcases List.mem_cons.mp hx with h | h
          · exact absurd h hxa
          · exact h
        refine Or.inr ?_
        simp only [orderedPairs, List.mem_append, List.mem_map]
        exact Or.inl ⟨x, hxt, rfl⟩
      · have hxt : x ∈ t := by
          rcases List.mem_cons.mp hx with h | h
          · exact absurd h hxa
          · exact h
        have hyt : y ∈ t := by
          rcases List.mem_cons.mp hy with h | h
          · exact absurd h hya
          · exact h
        rcases ih hxt hyt with h | h
        · refine Or.inl ?_
          simp only [orderedPairs, List.mem_append]
          exact Or.inr h
        · refine Or.inr ?_
          simp only [orderedPairs, List.mem_append]
          exact Or.inr h

/-- Membership in the shared-symbol enumeration of a pair. -/
theorem mem_sharedSyms (cs : List (String × List String)) (e1 e2 s : String) :
    s ∈ sharedSyms cs e1 e2 ↔
      s ∈ lookupD cs e1 [] ∧ s ∈ lookupD cs e2 [] := by
  simp [sharedSyms, List.mem_filter, List.mem_dedup]

/-- Membership in the detector's enumerated triples. -/
theorem mem_detectTriples (tickers : TickerSnapshot)
    (cs : List (String × List String)) (e1 e2 s : String) :
    (e1, e2, s) ∈ detectTriples tickers cs ↔
      (e1, e2) ∈ orderedPairs (tickers.map Prod.fst) ∧
      s ∈ sharedSyms cs e1 e2 := by
  simp only [detectTriples, List.mem_flatMap, List.mem_map]
  constructor
  · rintro ⟨p, hp, s', hs', he⟩
    obtain ⟨p1, p2⟩ := p
    simp only [Prod.mk.injEq] at he
    obtain ⟨rfl, rfl, rfl⟩ := he
    exact ⟨hp, hs'⟩
  · rintro ⟨hp, hs⟩
    exact ⟨(e1, e2), hp, s, hs, rfl⟩

/-- The `checked` collection only grows during the detector loop. -/
theorem detectLoop_checked_subset (tk : TickerSnapshot)
    (cs : List (String × List String)) (th : ℚ) :
    ∀ (todo checked : List (String × String × String))
      (opps : List Opportunity) (t : String × String × String),
      t ∈ checked → t ∈ (detectLoop tk cs th todo checked opps).1 := by
  intro todo
  induction todo with
  | nil =>
    intro checked opps t ht
    simpa [detectLoop] using ht
  | cons hd tl ih =>
    obtain ⟨e1, e2, s⟩ := hd
    intro checked opps t ht
    simp only [detectLoop]
    split
    · exact ih checked opps t ht
    · exact ih _ _ t (List.mem_cons_of_mem _ ht)

/-- Every element of the final `checked` collection was initially in
`checked` or among the enumerated triples. -/
theorem detectLoop_checked_from (tk : TickerSnapshot)
    (cs : List (String × List String)) (th : ℚ) :
    ∀ (todo checked : List (String × String × String))
      (opps : List Opportunity) (t : String × String × String),
      t ∈ (detectLoop tk cs th todo checked opps).1 →
      t ∈ checked ∨ t ∈ todo := by
  intro todo
  induction todo with
  | nil =>
    intro checked opps t ht
    exact Or.inl (by simpa [detectLoop] using ht)
  | cons hd tl ih =>
    obtain ⟨e1, e2, s⟩ := hd
    intro checked opps t ht
    simp only [detectLoop] at ht
    split at ht
    · rcases ih _ _ _ ht with h | h
      · exact Or.inl h
      · exact Or.inr (List.mem_cons_of_mem _ h)
    · rcases ih _ _ _ ht with h | h
      · rcases List.mem_cons.mp h with he | h2
        · exact Or.inr (he ▸ List.mem_cons_self _ _)
        · exact Or.inl h2
      · exact Or.inr (List.mem_cons_of_mem _ h)

/-- The `checked` guard preserves the at-most-once property of every
unordered (pair, symbol) combination. -/
theorem detectLoop_count_le (tk : TickerSnapshot)
    (cs : List (String × List String)) (th : ℚ) :
    ∀ (todo checked : List (String × String × String))
      (opps : List Opportunity),
      (∀ x y s, unorderedCount checked x y s ≤ 1) →
      ∀ x y s,
        unorderedCount (detectLoop tk cs th todo checked opps).1 x y s ≤ 1 := by
  intro todo
  induction todo with
  | nil =>
    intro checked opps h x y s
    simpa [detectLoop] using h x y s
  | cons hd tl ih =>
    obtain ⟨e1, e2, s'⟩ := hd
    intro checked opps h x y s
    simp only [detectLoop]
    split
    · exact ih checked opps h x y s
    · rename_i hguard
      refine ih _ _ ?_ x y s
      intro u v w
      rw [unorderedCount, List.countP_cons]
      by_cases hp : (e1, e2, s') = (u, v, w) ∨ (e1, e2, s') = (v, u, w)
      · have h1 : (u, v, w) ∉ checked ∧ (v, u, w) ∉ checked := by
          rcases hp with he | he
          · simp only [Prod.mk.injEq] at he
            obtain ⟨rfl, rfl, rfl⟩ := he
            exact ⟨fun hc => hguard (Or.inl hc), fun hc => hguard (Or.inr hc)⟩
          · simp only [Prod.mk.injEq] at he
            obtain ⟨rfl, rfl, rfl⟩ := he
            exact ⟨fun hc => hguard (Or.inr hc), fun hc => hguard (Or.inl hc)⟩
        have hzero : unorderedCount checked u v w = 0 := by
          rw [unorderedCount, List.countP_eq_zero]
          intro a ha
          simp only [decide_eq_true_eq, not_or]
          exact ⟨fun e => h1.1 (e ▸ ha), fun e => h1.2 (e ▸ ha)⟩
        rw [if_pos (by simpa using hp)]
        have heq : List.countP
            (fun t => decide (t = (u, v, w) ∨ t = (v, u, w))) checked =
            unorderedCount checked u v w := rfl
        omega
      · rw [if_neg (by simpa using hp)]
        have heq : List.countP
            (fun t => decide (t = (u, v, w) ∨ t = (v, u, w))) checked =
            unorderedCount checked u v w := rfl
        have := h u v w
        omega

/-- Every enumerated triple ends up in the final `checked` collection in
one of its two orientations. -/
theorem detectLoop_reaches (tk : TickerSnapshot)
    (cs : List (String × List String)) (th : ℚ) :
    ∀ (todo checked : List (String × String × String))
      (opps : List Opportunity) (x y s : String),
      ((x, y, s) ∈ checked ∨ (y, x, s) ∈ checked) ∨ (x, y, s) ∈ todo →
      (x, y, s) ∈ (detectLoop tk cs th todo checked opps).1 ∨
      (y, x, s) ∈ (detectLoop tk cs th todo checked opps).1 := by
  intro todo
  induction todo with
  | nil =>
    intro checked opps x y s h
    rcases h with h | h
    · rcases h with h | h
      · exact Or.inl (by simpa [detectLoop] using h)
      · exact Or.inr (by simpa [detectLoop] using h)
    · cases h
  | cons hd tl ih =>
    obtain ⟨e1, e2, s'⟩ := hd
    intro checked opps x y s h
    simp only [detectLoop]
    split
    · rename_i hguard
      refine ih _ _ x y s ?_
      rcases h with h | h
      · exact Or.inl h
      · rcases List.mem_cons.mp h with he | h2
        · simp only [Prod.mk.injEq] at he
          obtain ⟨rfl, rfl, rfl⟩ := he
          exact Or.inl hguard
        · exact Or.inr h2
    · refine ih _ _ x y s ?_
      rcases h with h | h
      · rcases h with h | h
        · exact Or.inl (Or.inl (List.mem_cons_of_mem _ h))
        · exact Or.inl (Or.inr (List.mem_cons_of_mem _ h))
      · rcases List.mem_cons.mp h with he | h2
        · simp only [Prod.mk.injEq] at he
          obtain ⟨rfl, rfl, rfl⟩ := he
          exact Or.inl (Or.inl (List.mem_cons_self _ _))
        · exact Or.inr h2

/-- Membership in an orientation gives a positive unordered count. -/
theorem unorderedCount_pos (l : List (String × String × String))
    (x y s : String) (h : (x, y, s) ∈ l ∨ (y, x, s) ∈ l) :
    1 ≤ unorderedCount l x y s := by
  have hpos : 0 < unorderedCount l x y s := by
    rw [unorderedCount, List.countP_pos_iff]
    rcases h with h | h
    · exact ⟨_, h, by simp⟩
    · exact ⟨_, h, by simp⟩
  omega

/-- C4: in one detection tick, every unordered (exchange-pair, symbol)
combination is evaluated at most once, and exactly once when both
exchanges are in the snapshot and the symbol is common to both; every
evaluated pair draws its exchanges from the snapshot; and every exchange
in the snapshot built by `get_all_tickers` contributed at least one
ticker. -/
theorem pair_symbol_evaluated_once :
    (∀ (tickers : TickerSnapshot) (cs : List (String × List String))
      (threshold : ℚ) (x y s : String),
      unorderedCount
        (detectLoop tickers cs threshold (detectTriples tickers cs) [] []).1
        x y s ≤ 1) ∧
    (∀ (tickers : TickerSnapshot) (cs : List (String × List String))
      (threshold : ℚ) (x y s : String),
      x ∈ tickers.map Prod.fst → y ∈ tickers.map Prod.fst → x ≠ y →
      s ∈ lookupD cs x [] → s ∈ lookupD cs y [] →
      unorderedCount
        (detectLoop tickers cs threshold (detectTriples tickers cs) [] []).1
        x y s = 1) ∧
    (∀ (tickers : TickerSnapshot) (cs : List (String × List String))
      (threshold : ℚ) (t : String × String × String),
      t ∈ (detectLoop tickers cs threshold
        (detectTriples tickers cs) [] []).1 →
      t.1 ∈ tickers.map Prod.fst ∧ t.2.1 ∈ tickers.map Prod.fst) ∧
    (∀ (results : List (String × List (String × Ticker)))
      (p : String × List (String × Ticker)),
      p ∈ get_all_tickers results → p.2 ≠ []) := by
  refine ⟨?_, ?_, ?_, ?_⟩
  · intro tickers cs threshold x y s
    refine detectLoop_count_le tickers cs threshold _ [] [] ?_ x y s
    intro u v w
    simp [unorderedCount]
  · intro tickers cs threshold x y s hx hy hxy hsx hsy
    have hle := detectLoop_count_le tickers cs threshold
      (detectTriples tickers cs) [] []
      (by intro u v w; simp [unorderedCount]) x y s
    have hge : 1 ≤ unorderedCount
        (detectLoop tickers cs threshold
          (detectTriples tickers cs) [] []).1 x y s := by
      rcases orderedPairs_exists _ x y hx hy hxy with h | h
      · have ht : (x, y, s) ∈ detectTriples tickers cs :=
          (mem_detectTriples tickers cs x y s).mpr
            ⟨h, (mem_sharedSyms cs x y s).mpr ⟨hsx, hsy⟩⟩
        exact unorderedCount_pos _ x y s
          (detectLoop_reaches tickers cs threshold _ [] [] x y s (Or.inr ht))
      · have ht : (y, x, s) ∈ detectTriples tickers cs :=
          (mem_detectTriples tickers cs y x s).mpr
            ⟨h, (mem_sharedSyms cs y x s).mpr ⟨hsy, hsx⟩⟩
        exact unorderedCount_pos _ x y s
          (detectLoop_reaches tickers cs threshold _ [] [] y x s
            (Or.inr ht)).symm
    omega
  · intro tickers cs threshold t ht
    obtain ⟨e1, e2, s⟩ := t
    rcases detectLoop_checked_from tickers cs threshold _ [] [] _ ht with
      h | h
    · cases h
    · exact orderedPairs_mem_keys _ _ _
        ((mem_detectTriples tickers cs e1 e2 s).mp h).1
  · intro results p hp hnil
    rw [get_all_tickers, List.mem_filter] at hp
    have h2 := hp.2
    rw [hnil] at h2
    simp at h2

/-- Witness for C4: with a two-exchange snapshot sharing symbol S, the
combination {a, b} × {S} is evaluated exactly once, and an exchange kept
by `get_all_tickers` has a non-empty ticker map. -/
theorem pair_symbol_evaluated_once_witness :
    unorderedCount
      (detectLoop
        [("a", [("S", ⟨none, none, none, none⟩)]),
         ("b", [("S", ⟨none, none, none, none⟩)])]
        [("a", ["S"]), ("b", ["S"])] (5 / 100)
        (detectTriples
          [("a", [("S", ⟨none, none, none, none⟩)]),
           ("b", [("S", ⟨none, none, none, none⟩)])]
          [("a", ["S"]), ("b", ["S"])]) [] []).1 "a" "b" "S" = 1 ∧
    ([("S", (⟨none, none, none, none⟩ : Ticker))] : List (String × Ticker))
      ≠ [] := by
  constructor
  · exact pair_symbol_evaluated_once.2.1
      [("a", [("S", ⟨none, none, none, none⟩)]),
       ("b", [("S", ⟨none, none, none, none⟩)])]
      [("a", ["S"]), ("b", ["S"])] (5 / 100) "a" "b" "S"
      (by decide) (by decide) (by decide) (by decide) (by decide)
  · exact pair_symbol_evaluated_once.2.2.2
      [("a", [("S", ⟨none, none, none, none⟩)]), ("c", [])]
      ("a", [("S", ⟨none, none, none, none⟩)]) (by decide)

/-! ### C6 / C7 / C8 / C10: alert deduplication -/

/-- The delivered-key set only grows in one record-and-filter pass. -/
theorem recordAndFilter_subset :
    ∀ (opps : List Opportunity) (s : Finset String),
      s ⊆ (recordAndFilter s opps).1 := by
  intro opps
  induction opps with
  | nil => intro s; exact Finset.Subset.refl s
  | cons o rest ih =>
    intro s
    rw [recordAndFilter]
    split
    · exact ih s
    · exact fun a ha =>
        ih (insert (opportunity_key o) s) (Finset.mem_insert_of_mem ha)

/-- After a pass, every processed opportunity's key is in the delivered
set. -/
theorem recordAndFilter_key_mem :
    ∀ (opps : List Opportunity) (s : Finset String) (opp : Opportunity),
      opp ∈ opps → opportunity_key opp ∈ (recordAndFilter s opps).1 := by
  intro opps
  induction opps with
  | nil => intro s opp h; cases h
  | cons o rest ih =>
    intro s opp h
    rw [recordAndFilter]
    split
    · rename_i hk
      rcases List.mem_cons.mp h with rfl | h2
      · exact recordAndFilter_subset rest s hk
      · exact ih s opp h2
    · rcases List.mem_cons.mp h with rfl | h2
      · exact recordAndFilter_subset rest _
          (Finset.mem_insert_self (opportunity_key opp) s)
      · exact ih _ opp h2

/-- A pass over opportunities whose keys are all already delivered
produces an empty outgoing batch. -/
theorem recordAndFilter_stale_nil :
    ∀ (opps : List Opportunity) (s : Finset String),
      (∀ opp ∈ opps, opportunity_key opp ∈ s) →
      (recordAndFilter s opps).2 = [] := by
  intro opps
  induction opps with
  | nil => intro s _; rfl
  | cons o rest ih =>
    intro s h
    rw [recordAndFilter]
    rw [if_pos (h o (List.mem_cons_self _ _))]
    exact ih s fun opp hm => h opp (List.mem_cons_of_mem _ hm)

/-- An opportunity is delivered only if its key was not already in the
subscriber's delivered set. -/
theorem recordAndFilter_out_key_new :
    ∀ (opps : List Opportunity) (s : Finset String) (opp : Opportunity),
      opp ∈ (recordAndFilter s opps).2 → opportunity_key opp ∉ s := by
  intro opps
  induction opps with
  | nil => intro s opp h; cases h
  | cons o rest ih =>
    intro s opp h
    rw [recordAndFilter] at h
    split at h
    · exact ih s opp h
    · rename_i hk
      rcases List.mem_cons.mp h with rfl | h2
      · exact hk
      · intro hmem
        exact ih _ opp h2 (Finset.mem_insert_of_mem hmem)

/-- C6: the per-subscriber record-and-filter step is idempotent —
running it again with the same opportunities against the delivered set
produced by the first run delivers nothing new. -/
theorem dedup_idempotent (s : Finset String) (opps : List Opportunity) :
    (recordAndFilter ((recordAndFilter s opps).1) opps).2 = [] :=
  recordAndFilter_stale_nil opps _ fun opp h =>
    recordAndFilter_key_mem opps s opp h

/-- C7: the hourly reset clears every subscriber's delivered-key set,
and afterwards any previously delivered opportunity is delivered
again by the record-and-filter step. -/
theorem reset_clears_all_subscribers (m : SentMap) (u : ℤ) :
    getUser (clear_sent_opportunities m) u = ∅ ∧
    ∀ opp : Opportunity,
      (recordAndFilter (getUser (clear_sent_opportunities m) u) [opp]).2 =
        [opp] := by
  have hclear : getUser (clear_sent_opportunities m) u = ∅ := by
    rw [getUser, clear_sent_opportunities, List.find?_map]
    cases h : m.find? ((fun p => decide (p.1 = u)) ∘
        fun p => (p.1, (∅ : Finset String))) <;> rfl
  refine ⟨hclear, ?_⟩
  intro opp
  rw [hclear, recordAndFilter]
  rw [if_neg (Finset.not_mem_empty _)]
  rfl

/-- C8: the opportunity key depends only on (symbol, buyExchange,
sellExchange) and not on prices or profit; within one record-and-filter
pass the delivered batch never contains two opportunities with the same
key; and a delivered opportunity's key was not delivered earlier — so
two same-key opportunities yield at most one delivered alert between
resets. -/
theorem opportunity_key_dedup :
    (∀ o1 o2 : Opportunity, o1.symbol = o2.symbol →
      o1.buy_exchange = o2.buy_exchange →
      o1.sell_exchange = o2.sell_exchange →
      opportunity_key o1 = opportunity_key o2) ∧
    (∀ (s : Finset String) (opps : List Opportunity),
      ((recordAndFilter s opps).2.map opportunity_key).Nodup) ∧
    (∀ (s : Finset String) (opps : List Opportunity) (opp : Opportunity),
      opp ∈ (recordAndFilter s opps).2 → opportunity_key opp ∉ s) := by
  refine ⟨?_, ?_, ?_⟩
  · intro o1 o2 h1 h2 h3
    rw [opportunity_key, opportunity_key, h1, h2, h3]
  · intro s opps
    induction opps generalizing s with
    | nil => simp [recordAndFilter]
    | cons o rest ih =>
      rw [recordAndFilter]
      split
      · exact ih s
      · simp only [List.map_cons, List.nodup_cons]
        refine ⟨?_, ih _⟩
        intro hmem
        obtain ⟨opp, hopp, hkey⟩ := List.mem_map.mp hmem
        exact recordAndFilter_out_key_new rest _ opp hopp
          (hkey ▸ Finset.mem_insert_self _ _)
  · exact fun s opps opp h => recordAndFilter_out_key_new opps s opp h

/-- Witness for C8: two opportunities with the same direction triple but
different prices share a key. -/
theorem opportunity_key_dedup_witness :
    opportunity_key ⟨"S", "B", 1, "A", 2, 3⟩ =
      opportunity_key ⟨"S", "B", 5, "A", 6, 7⟩ :=
  opportunity_key_dedup.1 ⟨"S", "B", 1, "A", 2, 3⟩ ⟨"S", "B", 5, "A", 6, 7⟩
    rfl rfl rfl

/-- C10: unsubscribing (and resubscribing) touches only the
subscribed-user set; the delivered-key state is unchanged, so a key
delivered before the unsubscribe is still suppressed afterwards. -/
theorem unsubscribe_keeps_sent (st : BotState) (u : ℤ) :
    (stopCmd u st).sent = st.sent ∧
    (subscribeCmd u (stopCmd u st)).sent = st.sent ∧
    ∀ opp : Opportunity,
      opportunity_key opp ∈ getUser st.sent u →
      (recordAndFilter
        (getUser (subscribeCmd u (stopCmd u st)).sent u) [opp]).2 = [] := by
  have h1 : (stopCmd u st).sent = st.sent := by
    rw [stopCmd]
    split <;> rfl
  have h2 : (subscribeCmd u (stopCmd u st)).sent = st.sent := by
    rw [subscribeCmd]
    split <;> simp [h1]
  refine ⟨h1, h2, ?_⟩
  intro opp hk
  rw [h2, recordAndFilter, if_pos hk]
  rfl

/-- Witness for C10: a key delivered to subscriber 5 stays suppressed
across an unsubscribe/resubscribe cycle. -/
theorem unsubscribe_keeps_sent_witness :
    (recordAndFilter
      (getUser (subscribeCmd 5 (stopCmd 5
        ⟨{5}, [(5, {"S:B:A"})]⟩)).sent 5)
      [⟨"S", "B", 1, "A", 2, 3⟩]).2 = [] :=
  (unsubscribe_keeps_sent ⟨{5}, [(5, {"S:B:A"})]⟩ 5).2.2
    ⟨"S", "B", 1, "A", 2, 3⟩ (by decide)

/-! ### C9: delivery-failure isolation -/

/-- Writing a subscriber's set and reading it back. -/
theorem getUser_setUser_self (m : SentMap) (u : ℤ) (s : Finset String) :
    getUser (setUser m u s) u = s := by
  rw [getUser, setUser]
  split
  · rename_i hany
    rw [List.find?_map]
    have hcomp : ((fun p : ℤ × Finset String => decide (p.1 = u)) ∘
        fun p => if p.1 = u then (u, s) else p) =
        fun p : ℤ × Finset String => decide (p.1 = u) := by
      funext p
      by_cases hp : p.1 = u <;> simp [hp]
    rw [hcomp]
    have hsome : (m.find? fun p => decide (p.1 = u)).isSome := by
      rw [List.find?_isSome]
      obtain ⟨p0, hp0, hp0u⟩ := List.any_eq_true.mp hany
      exact ⟨p0, hp0, hp0u⟩
    obtain ⟨q, hq⟩ := Option.isSome_iff_exists.mp hsome
    rw [hq]
    have hql := List.find?_some hq
    simp only [decide_eq_true_eq] at hql
    simp [hql]
  · rename_i hany
    have hnone : m.find? (fun p => decide (p.1 = u)) = none := by
      rw [List.find?_eq_none]
      intro x hx hxu
      exact hany (List.any_eq_true.mpr ⟨x, hx, hxu⟩)
    have hone : ([(u, s)].find? fun p => decide (p.1 = u)) = some (u, s) :=
      List.find?_cons_of_pos _ (by simp)
    rw [List.find?_append, hnone, hone]
    rfl

/-- Writing another subscriber's set leaves a read unchanged. -/
theorem getUser_setUser_ne (m : SentMap) (u v : ℤ) (s : Finset String)
    (huv : u ≠ v) : getUser (setUser m v s) u = getUser m u := by
  rw [getUser, getUser, setUser]
  split
  · rw [List.find?_map]
    have hcomp : ((fun p : ℤ × Finset String => decide (p.1 = u)) ∘
        fun p => if p.1 = v then (v, s) else p) =
        fun p : ℤ × Finset String => decide (p.1 = u) := by
      funext p
      by_cases hp : p.1 = v
      · simp [hp, Ne.symm huv]
      · simp [hp]
    rw [hcomp]
    cases h : m.find? (fun p => decide (p.1 = u)) with
    | none => rfl
    | some q =>
      have hq := List.find?_some h
      simp only [decide_eq_true_eq] at hq
      simp [hq, huv]
  · have hone : ([(v, s)].find? fun p => decide (p.1 = u)) = none := by
      rw [List.find?_eq_none]
      intro x hx
      rw [List.mem_singleton] at hx
      subst hx
      simp [Ne.symm huv]
    rw [List.find?_append, hone]
    cases h : m.find? (fun p => decide (p.1 = u)) with
    | none => rfl
    | some q => rfl

/-- One step of the subscriber loop: the state thread. -/
theorem alertLoop_cons_fst (opps : List Opportunity) (sendOk : ℤ → Bool)
    (u : ℤ) (rest : List ℤ) (st : SentMap) :
    (alertLoop opps sendOk (u :: rest) st).1 =
    (alertLoop opps sendOk rest
      (setUser st u (recordAndFilter (getUser st u) opps).1)).1 := by
  simp only [alertLoop]
  split <;> rfl

/-- One step of the subscriber loop: the sent-message list. -/
theorem alertLoop_cons_snd (opps : List Opportunity) (sendOk : ℤ → Bool)
    (u : ℤ) (rest : List ℤ) (st : SentMap) :
    (alertLoop opps sendOk (u :: rest) st).2 =
    (if (recordAndFilter (getUser st u) opps).2 ≠ [] ∧ sendOk u then
      [(u, (recordAndFilter (getUser st u) opps).2)] else []) ++
    (alertLoop opps sendOk rest
      (setUser st u (recordAndFilter (getUser st u) opps).1)).2 := by
  simp only [alertLoop]
  split <;> rfl

/-- The updated `sent_opportunities` state does not depend on which
sends succeed. -/
theorem alertLoop_fst_indep (opps : List Opportunity)
    (sendOk sendOk' : ℤ → Bool) :
    ∀ (subs : List ℤ) (st : SentMap),
      (alertLoop opps sendOk subs st).1 =
      (alertLoop opps sendOk' subs st).1 := by
  intro subs
  induction subs with
  | nil => intro st; rfl
  | cons v rest ih =>
    intro st
    rw [alertLoop_cons_fst, alertLoop_cons_fst, ih]

/-- Subscribers not in the processed list keep their delivered set. -/
theorem alertLoop_fst_not_mem (opps : List Opportunity) (sendOk : ℤ → Bool) :
    ∀ (subs : List ℤ) (st : SentMap) (u : ℤ), u ∉ subs →
      getUser (alertLoop opps sendOk subs st).1 u = getUser st u := by
  intro subs
  induction subs with
  | nil => intro st u _; rfl
  | cons v rest ih =>
    intro st u hu
    rw [alertLoop_cons_fst,
      ih _ u (fun h => hu (List.mem_cons_of_mem _ h))]
    exact getUser_setUser_ne _ u v _
      (fun e => hu (e ▸ List.mem_cons_self _ _))

/-- After the subscriber loop, each processed subscriber's delivered set
is exactly the record-and-filter update of its starting set, whether or
not the send to that subscriber succeeded. -/
theorem alertLoop_fst_getUser (opps : List Opportunity) (sendOk : ℤ → Bool) :
    ∀ (subs : List ℤ) (st : SentMap) (u : ℤ), subs.Nodup → u ∈ subs →
      getUser (alertLoop opps sendOk subs st).1 u =
        (recordAndFilter (getUser st u) opps).1 := by
  intro subs
  induction subs with
  | nil => intro st u _ hu; cases hu
  | cons v rest ih =>
    intro st u hnd hu
    rw [List.nodup_cons] at hnd
    rw [alertLoop_cons_fst]
    by_cases hv : u = v
    · subst hv
      rw [alertLoop_fst_not_mem opps sendOk rest _ u hnd.1]
      exact getUser_setUser_self _ _ _
    · rcases List.mem_cons.mp hu with he | hm
      · exact absurd he hv
      · rw [ih _ u hnd.2 hm, getUser_setUser_ne _ u v _ hv]

/-- Whether a subscriber's message batch is sent depends only on that
subscriber's own send outcome. -/
theorem alertLoop_mem_snd (opps : List Opportunity)
    (sendOk sendOk' : ℤ → Bool) (u : ℤ) (l : List Opportunity)
    (h : sendOk u = sendOk' u) :
    ∀ (subs : List ℤ) (st : SentMap),
      ((u, l) ∈ (alertLoop opps sendOk subs st).2 ↔
       (u, l) ∈ (alertLoop opps sendOk' subs st).2) := by
  intro subs
  induction subs with
  | nil => intro st; exact Iff.rfl
  | cons v rest ih =>
    intro st
    rw [alertLoop_cons_snd, alertLoop_cons_snd]
    simp only [List.mem_append]
    have htail := ih (setUser st v (recordAndFilter (getUser st v) opps).1)
    by_cases hv : v = u
    · subst hv
      rw [h]
      exact or_congr Iff.rfl htail
    · have hne : ∀ r2 : List Opportunity, (u, l) ≠ (v, r2) := by
        intro r2 he
        injection he with h1 _
        exact hv h1.symm
      constructor
      · rintro (hh | ht)
        · exfalso
          split at hh
          · rw [List.mem_singleton] at hh
            exact hne _ hh
          · cases hh
        · exact Or.inr (htail.mp ht)
      · rintro (hh | ht)
        · exfalso
          split at hh
          · rw [List.mem_singleton] at hh
            exact hne _ hh
          · cases hh
        · exact Or.inr (htail.mpr ht)

/-- C9: opportunity keys are recorded in a subscriber's delivered set
whether or not the notification send succeeds — the state update is
independent of send outcomes, each processed subscriber's set is the
record-and-filter update even when its send fails, and one subscriber's
send outcome never affects another subscriber's outgoing batch. -/
theorem send_failure_isolated :
    (∀ (subs : List ℤ) (opps : List Opportunity)
      (sendOk sendOk' : ℤ → Bool) (st : SentMap),
      (send_arbitrage_alerts subs opps sendOk st).1 =
      (send_arbitrage_alerts subs opps sendOk' st).1) ∧
    (∀ (subs : List ℤ) (opps : List Opportunity) (sendOk : ℤ → Bool)
      (st : SentMap) (u : ℤ), subs.Nodup → u ∈ subs → opps ≠ [] →
      getUser (send_arbitrage_alerts subs opps sendOk st).1 u =
        (recordAndFilter (getUser st u) opps).1) ∧
    (∀ (subs : List ℤ) (opps : List Opportunity)
      (sendOk sendOk' : ℤ → Bool) (st : SentMap) (u : ℤ)
      (l : List Opportunity), sendOk u = sendOk' u →
      ((u, l) ∈ (send_arbitrage_alerts subs opps sendOk st).2 ↔
       (u, l) ∈ (send_arbitrage_alerts subs opps sendOk' st).2)) := by
  refine ⟨?_, ?_, ?_⟩
  · intro subs opps sendOk sendOk' st
    rw [send_arbitrage_alerts, send_arbitrage_alerts]
    split
    · rfl
    · exact alertLoop_fst_indep opps sendOk sendOk' subs st
  · intro subs opps sendOk st u hnd hu hne
    rw [send_arbitrage_alerts,
      if_neg (by simpa [List.isEmpty_iff] using hne)]
    exact alertLoop_fst_getUser opps sendOk subs st u hnd hu
  · intro subs opps sendOk sendOk' st u l h
    rw [send_arbitrage_alerts, send_arbitrage_alerts]
    split
    · exact Iff.rfl
    · exact alertLoop_mem_snd opps sendOk sendOk' u l h subs st

/-- Witness for C9: with a single subscriber whose send always fails,
the opportunity's key is still recorded in the subscriber's delivered
set. -/
theorem send_failure_isolated_witness :
    getUser (send_arbitrage_alerts [5] [⟨"S", "B", 1, "A", 2, 3⟩]
      (fun _ => false) []).1 5 =
      (recordAndFilter (getUser [] 5) [⟨"S", "B", 1, "A", 2, 3⟩]).1 :=
  send_failure_isolated.2.1 [5] [⟨"S", "B", 1, "A", 2, 3⟩] (fun _ => false)
    [] 5 (by simp) (by simp) (by simp)

/-! ### C5: ticker-fetch resilience -/

/-- C5: the batch loop never propagates a batch failure — a transient
batch error keeps the accumulated tickers, adds the fixed 1-second
backoff to the elapsed time and continues with the next batch; the
per-exchange timeout is checked before each batch and on expiry the
accumulated (possibly empty) map is returned; and in the spec's
three-batch example where batch 2 fails transiently, the result still
contains batches 1 and 3. -/
theorem fetch_batch_resilient :
    (∀ (env : FetchEnv) (timeout : ℚ) (bs : ℕ) (s : String)
      (rest : List String) (i : ℕ) (elapsed : ℚ)
      (acc : List (String × Ticker)) (dur : ℚ),
      env.batchResult i = .transient dur → ¬ elapsed > timeout →
      fetchBatches env timeout bs (s :: rest) i elapsed acc =
        fetchBatches env timeout bs (rest.drop (bs - 1)) (i + bs)
          (elapsed + dur + 1) acc) ∧
    (∀ (env : FetchEnv) (timeout : ℚ) (bs : ℕ) (s : String)
      (rest : List String) (i : ℕ) (elapsed : ℚ)
      (acc : List (String × Ticker)),
      elapsed > timeout →
      fetchBatches env timeout bs (s :: rest) i elapsed acc = acc) ∧
    (∀ (env : FetchEnv) (timeout : ℚ) (s1 s2 s3 : String)
      (m1 m3 : List (String × Ticker)) (d1 d2 d3 : ℚ)
      (acc : List (String × Ticker)),
      env.batchResult 0 = .ok m1 d1 → env.batchResult 1 = .transient d2 →
      env.batchResult 2 = .ok m3 d3 →
      0 ≤ timeout → d1 ≤ timeout → d1 + d2 + 1 ≤ timeout →
      fetchBatches env timeout 1 [s1, s2, s3] 0 0 acc =
        dictUpdate (dictUpdate acc m1) m3) := by
  refine ⟨?_, ?_, ?_⟩
  · intro env timeout bs s rest i elapsed acc dur hb ht
    rw [fetchBatches, if_neg ht, hb]
  · intro env timeout bs s rest i elapsed acc ht
    rw [fetchBatches, if_pos ht]
  · intro env timeout s1 s2 s3 m1 m3 d1 d2 d3 acc h0 h1 h2 ht0 ht1 ht2
    have e0 : ¬ ((0 : ℚ) > timeout) := not_lt.mpr ht0
    have e1 : ¬ (d1 > timeout) := not_lt.mpr ht1
    have e2 : ¬ (d1 + d2 + 1 > timeout) := not_lt.mpr ht2
    rw [fetchBatches, if_neg e0, h0]
    simp only [zero_add, List.drop]
    rw [fetchBatches, if_neg e1, h1]
    simp only [List.drop]
    rw [fetchBatches]
    rw [if_neg (by simpa using e2)]
    rw [h2]
    simp only [List.drop]
    rw [fetchBatches]

/-- Witness for C5: a concrete three-batch run (batch sizes 1, timeout
10) with a transient failure on the middle batch returns the merged
first and third batches. -/
theorem fetch_batch_resilient_witness :
    fetchBatches
      ⟨true,
        fun i =>
          if i = 0 then .ok [("S", ⟨some 1, some 2, none, none⟩)] 1
          else if i = 1 then .transient 1
          else .ok [("T", ⟨some 3, some 4, none, none⟩)] 1,
        none⟩
      10 1 ["S", "T", "U"] 0 0 [] =
      dictUpdate (dictUpdate [] [("S", ⟨some 1, some 2, none, none⟩)])
        [("T", ⟨some 3, some 4, none, none⟩)] :=
  fetch_batch_resilient.2.2
    ⟨true,
      fun i =>
        if i = 0 then .ok [("S", ⟨some 1, some 2, none, none⟩)] 1
        else if i = 1 then .transient 1
        else .ok [("T", ⟨some 3, some 4, none, none⟩)] 1,
      none⟩
    10 "S" "T" "U" [("S", ⟨some 1, some 2, none, none⟩)]
    [("T", ⟨some 3, some 4, none, none⟩)] 1 1 1 []
    rfl rfl rfl (by norm_num) (by norm_num) (by norm_num)

end TelArbitrage
